import Mathlib

/-!
Verification of the ComfyUI ProfilerX metrics core against its specification.

The time-range query layer (`filterHistoryByTimeRange`, `createTimeRangeSelector`)
is embedded from `src/web/app.d.ts`. The workflow aggregator, running-average
tracker and history store are present in the repository only as TypeScript type
declarations, so their operational definitions are modelled from the spec
(sections 4.2, 4.3, 4.4) and marked as such in their doc comments.
-/

namespace ProfilerX

/-! ## Time-range query layer (from `src/web/app.d.ts`) -/

/-- The `ranges` lookup object of `filterHistoryByTimeRange`:
`{'1h': 60*60*1000, '6h': 6*60*60*1000, '24h': 24*60*60*1000, '7d': 7*24*60*60*1000}`.
A key miss (JS `undefined`) is `none`. -/
def ranges (timeRange : String) : Option Int :=
  if timeRange = "1h" then some (60 * 60 * 1000)
  else if timeRange = "6h" then some (6 * 60 * 60 * 1000)
  else if timeRange = "24h" then some (24 * 60 * 60 * 1000)
  else if timeRange = "7d" then some (7 * 24 * 60 * 60 * 1000)
  else none

/-- The `options` array of `createTimeRangeSelector`, as (value, label) pairs. -/
def timeRangeOptions : List (String × String) :=
  [("1h", "1 hour"), ("6h", "6 hours"), ("24h", "24 hours"),
   ("7d", "7 days"), ("all", "All time")]

/-- `filterHistoryByTimeRange(history, timeRange)` from `src/web/app.d.ts`.
The history entries are `any[]` values carrying a `.startTime` field, embedded
as an arbitrary type `α` with a `startTime` projection; `Date.now()` is passed
explicitly as `now`. `ranges[timeRange] || 0` becomes `(ranges timeRange).getD 0`
(every table value is non-zero, so JS `||` and a default agree). -/
def filterHistoryByTimeRange {α : Type} (startTime : α → Int)
    (history : List α) (timeRange : String) (now : Int) : List α :=
  if timeRange = "all" then history
  else
    let cutoff := now - ((ranges timeRange).getD 0)
    history.filter (fun item => decide (startTime item > cutoff))

/-- State-passing reading of `filterHistoryByTimeRange`: alongside the result it
returns the input array as the call leaves it. The body performs no write to
`history`: the `'all'` branch returns the array itself and the other branch calls
the non-mutating `Array.prototype.filter`, so the second component is `history`
in both branches. -/
def filterHistoryByTimeRangeTracked {α : Type} (startTime : α → Int)
    (history : List α) (timeRange : String) (now : Int) : List α × List α :=
  if timeRange = "all" then (history, history)
  else
    let cutoff := now - ((ranges timeRange).getD 0)
    (history.filter (fun item => decide (startTime item > cutoff)), history)

/-- C1: for every history, every recognized non-`all` token and every `now`,
`filterHistoryByTimeRange` maps the token to its fixed duration (1h = 3,600,000 ms,
6h = 21,600,000 ms, 24h = 86,400,000 ms, 7d = 604,800,000 ms), sets
`cutoff = now - duration`, and returns exactly the ordered subsequence of entries
with `startTime > cutoff`, preserving the original relative order. -/
theorem filter_recognized_range_spec {α : Type} (startTime : α → Int)
    (history : List α) (now : Int) (timeRange : String)
    (h : timeRange ∈ ["1h", "6h", "24h", "7d"]) :
    ∃ duration : Int,
      ranges timeRange = some duration ∧
      duration = (if timeRange = "1h" then 3600000
        else if timeRange = "6h" then 21600000
        else if timeRange = "24h" then 86400000 else 604800000) ∧
      filterHistoryByTimeRange startTime history timeRange now
        = history.filter (fun item => decide (startTime item > now - duration)) ∧
      (filterHistoryByTimeRange startTime history timeRange now).Sublist history := by
  simp only [List.mem_cons, List.not_mem_nil, or_false] at h
  rcases h with rfl | rfl | rfl | rfl
  · exact ⟨3600000, rfl, rfl, rfl, List.filter_sublist _⟩
  · exact ⟨21600000, rfl, rfl, rfl, List.filter_sublist _⟩
  · exact ⟨86400000, rfl, rfl, rfl, List.filter_sublist _⟩
  · exact ⟨604800000, rfl, rfl, rfl, List.filter_sublist _⟩

/-- Witness for C1, on the spec's scenario: token `1h`, `now = 10,000,000`,
entries at `now - 30min = 8,200,000` (kept) and `now - 2h = 2,800,000` (dropped). -/
theorem filter_recognized_range_spec_witness :
    ("1h" ∈ ["1h", "6h", "24h", "7d"]) ∧
    (∃ duration : Int,
      ranges "1h" = some duration ∧
      duration = (if "1h" = "1h" then 3600000
        else if "1h" = "6h" then 21600000
        else if "1h" = "24h" then 86400000 else 604800000) ∧
      filterHistoryByTimeRange (fun x : Int => x) [8200000, 2800000] "1h" 10000000
        = List.filter (fun item => decide (item > 10000000 - duration)) [8200000, 2800000] ∧
      (filterHistoryByTimeRange (fun x : Int => x) [8200000, 2800000] "1h" 10000000).Sublist
        [8200000, 2800000]) ∧
    filterHistoryByTimeRange (fun x : Int => x) [8200000, 2800000] "1h" 10000000 = [8200000] :=
  ⟨by decide,
   filter_recognized_range_spec (fun x : Int => x) [8200000, 2800000] 10000000 "1h" (by decide),
   by decide⟩

/-- C2 counterexample: with an unrecognized token the code keeps every entry whose
`startTime` exceeds `now`, so a future-dated entry makes the result non-empty; the
claim that the result is empty for every history is false. Here the history is one
entry with `startTime = 1`, the token is `3d` and `now = 0`. -/
theorem filter_unrecognized_empty_counterexample :
    ¬ (filterHistoryByTimeRange (fun x : Int => x) [1] "3d" 0 = []) := by decide

/-- C2 (amended): for every history all of whose entries have `startTime ≤ now`,
and every token outside {`1h`, `6h`, `24h`, `7d`, `all`}, the token is treated as
duration 0 (cutoff = now) and the result is empty; the total function never throws. -/
theorem filter_unrecognized_empty {α : Type} (startTime : α → Int)
    (history : List α) (now : Int) (timeRange : String)
    (hnot : timeRange ∉ ["1h", "6h", "24h", "7d", "all"])
    (hpast : ∀ item ∈ history, startTime item ≤ now) :
    filterHistoryByTimeRange startTime history timeRange now = [] := by
  simp only [List.mem_cons, List.not_mem_nil, or_false, not_or] at hnot
  obtain ⟨h1, h6, h24, h7, hall⟩ := hnot
  unfold filterHistoryByTimeRange
  rw [if_neg hall]
  simp only [ranges, if_neg h1, if_neg h6, if_neg h24, if_neg h7, Option.getD_none, sub_zero]
  rw [List.filter_eq_nil_iff]
  intro item hitem
  simpa using hpast item hitem

/-- Witness for C2: token `3d`, two past-dated entries, `now = 10,000,000`. -/
theorem filter_unrecognized_empty_witness :
    ("3d" ∉ ["1h", "6h", "24h", "7d", "all"]) ∧
    (∀ item ∈ ([2800000, 8200000] : List Int), (fun x : Int => x) item ≤ 10000000) ∧
    filterHistoryByTimeRange (fun x : Int => x) [2800000, 8200000] "3d" 10000000 = [] :=
  ⟨by decide, by decide,
   filter_unrecognized_empty (fun x : Int => x) [2800000, 8200000] 10000000 "3d"
     (by decide) (by decide)⟩

/-- C3: with token `all`, `filterHistoryByTimeRange` is the identity on the
history, for every history and every `now`. -/
theorem filter_all_identity {α : Type} (startTime : α → Int)
    (history : List α) (now : Int) :
    filterHistoryByTimeRange startTime history "all" now = history := rfl

/-- C4: the tokens the query layer recognizes (`all`, plus the keys of the
`ranges` table) are exactly the five literal strings `1h`, `6h`, `24h`, `7d`,
`all`, and the selector offers exactly these five values in this order. -/
theorem range_token_vocabulary :
    (∀ timeRange : String,
      (timeRange = "all" ∨ (ranges timeRange).isSome = true) ↔
        timeRange ∈ ["1h", "6h", "24h", "7d", "all"]) ∧
    timeRangeOptions.map Prod.fst = ["1h", "6h", "24h", "7d", "all"] := by
  refine ⟨fun timeRange => ?_, rfl⟩
  simp only [ranges, List.mem_cons, List.not_mem_nil, or_false]
  split_ifs with h1 h6 h24 h7 <;> simp_all

/-- C9: `filterHistoryByTimeRange` leaves its input array unchanged: in the
state-passing reading, the input component after the call equals the input before
it, and the result component is the value the plain function returns. -/
theorem filter_input_unchanged {α : Type} (startTime : α → Int)
    (history : List α) (timeRange : String) (now : Int) :
    (filterHistoryByTimeRangeTracked startTime history timeRange now).2 = history ∧
    (filterHistoryByTimeRangeTracked startTime history timeRange now).1
      = filterHistoryByTimeRange startTime history timeRange now := by
  unfold filterHistoryByTimeRangeTracked filterHistoryByTimeRange
  split_ifs <;> exact ⟨rfl, rfl⟩

/-- C10: for every token outside {`1h`, `6h`, `24h`, `7d`, `all`},
`filterHistoryByTimeRange` returns exactly the entries with `startTime > now`,
and the result is empty iff no entry carries a future `startTime`. -/
theorem filter_unrecognized_future_only {α : Type} (startTime : α → Int)
    (history : List α) (now : Int) (timeRange : String)
    (hnot : timeRange ∉ ["1h", "6h", "24h", "7d", "all"]) :
    filterHistoryByTimeRange startTime history timeRange now
      = history.filter (fun item => decide (startTime item > now)) ∧
    (filterHistoryByTimeRange startTime history timeRange now = [] ↔
      ∀ item ∈ history, startTime item ≤ now) := by
  simp only [List.mem_cons, List.not_mem_nil, or_false, not_or] at hnot
  obtain ⟨h1, h6, h24, h7, hall⟩ := hnot
  have hmain : filterHistoryByTimeRange startTime history timeRange now
      = history.filter (fun item => decide (startTime item > now)) := by
    unfold filterHistoryByTimeRange
    rw [if_neg hall]
    simp only [ranges, if_neg h1, if_neg h6, if_neg h24, if_neg h7, Option.getD_none, sub_zero]
  refine ⟨hmain, ?_⟩
  rw [hmain, List.filter_eq_nil_iff]
  constructor
  · intro h item hitem
    have := h item hitem
    simpa using this
  · intro h item hitem
    simpa using h item hitem

/-- Witness for C10: token `3d`, `now = 10`, history `[5, 15]`: the future-dated
entry `15` is kept, so the result is non-empty exactly as the equivalence states. -/
theorem filter_unrecognized_future_only_witness :
    ("3d" ∉ ["1h", "6h", "24h", "7d", "all"]) ∧
    (filterHistoryByTimeRange (fun x : Int => x) [5, 15] "3d" 10
      = List.filter (fun item => decide (item > 10)) [5, 15] ∧
    (filterHistoryByTimeRange (fun x : Int => x) [5, 15] "3d" 10 = [] ↔
      ∀ item ∈ ([5, 15] : List Int), item ≤ 10)) ∧
    filterHistoryByTimeRange (fun x : Int => x) [5, 15] "3d" 10 = [15] :=
  ⟨by decide,
   filter_unrecognized_future_only (fun x : Int => x) [5, 15] 10 "3d" (by decide),
   by decide⟩

/-! ## Workflow aggregator (modelled from the spec)

The aggregator implementation is not among the repository's source files: only
the TypeScript type declarations of `NodeProfile` / `WorkflowProfile`
(`src/unnamed/part_002`, `src/web/modules.d.ts`) are. The operational model
below follows spec sections 3, 4.1 and 4.2. -/

/-- Modelled from the spec: a `NodeProfile` (declared in `src/unnamed/part_002`)
while in flight — `endTime` is absent until the node ends, `cacheHit` is absent
until the cache lookup resolves (spec section 3). -/
structure NodeProfile where
  nodeType : String
  startTime : Int
  endTime : Option Int
  vramBefore : Nat
  vramAfter : Nat
  ramBefore : Nat
  ramAfter : Nat
  cacheHit : Option Bool
deriving DecidableEq

/-- Modelled from the spec: a `WorkflowProfile` (declared in
`src/unnamed/part_002`) under construction by the aggregator; `nodes` is an
association list in ingest order (insertion order = ingest order, spec section 3). -/
structure WorkflowProfile where
  startTime : Int
  endTime : Option Int
  nodes : List (String × NodeProfile)
  totalVramPeak : Nat
  totalRamPeak : Nat
  cacheHits : Nat
  cacheMisses : Nat
deriving DecidableEq

/-- Modelled from the spec: the per-node lifecycle events of one workflow run
(spec sections 4.1, 6): node started, node ended (with the after-execution
memory samples), cache outcome resolved. -/
inductive NodeEvent where
  | start (nodeId : String) (nodeType : String) (timestamp : Int)
  | nodeEnd (nodeId : String) (timestamp : Int) (vramAfter : Nat) (ramAfter : Nat)
  | cacheResolved (nodeId : String) (hit : Bool)
deriving DecidableEq

/-- Lookup of a node by id in the aggregator's association list (first match). -/
def findNode : List (String × NodeProfile) → String → Option NodeProfile
  | [], _ => none
  | kv :: rest, k => if kv.1 = k then some kv.2 else findNode rest k

/-- Replacement of the first entry with the given id in the association list. -/
def setNode : List (String × NodeProfile) → String → NodeProfile → List (String × NodeProfile)
  | [], _, _ => []
  | kv :: rest, k, np => if kv.1 = k then (k, np) :: rest else kv :: setNode rest k np

/-- Modelled from the spec: the open `NodeProfile` created by a node-start event
(spec section 4.1: `onNodeStart` inserts a new open profile). -/
def freshNode (nodeType : String) (timestamp : Int) : NodeProfile :=
  { nodeType := nodeType, startTime := timestamp, endTime := none,
    vramBefore := 0, vramAfter := 0, ramBefore := 0, ramAfter := 0, cacheHit := none }

/-- Modelled from the spec: one aggregator step for one in-flight
`WorkflowProfile` (spec sections 4.1, 4.2, 7). A start event for a fresh id
appends an open profile; an end event for an open node closes it, records the
after-execution memory samples and recomputes `totalVramPeak = max(current,
vramAfter)` (likewise for RAM); a cache event sets `cacheHit` exactly once and
bumps exactly one of `cacheHits` / `cacheMisses`. Dangling events (unknown node,
node already closed) and double resolutions are dropped, per the error policy. -/
def applyEvent (p : WorkflowProfile) : NodeEvent → WorkflowProfile
  | .start nodeId nodeType timestamp =>
    match findNode p.nodes nodeId with
    | some _ => p
    | none => { p with nodes := p.nodes ++ [(nodeId, freshNode nodeType timestamp)] }
  | .nodeEnd nodeId timestamp vramAfter ramAfter =>
    match findNode p.nodes nodeId with
    | none => p
    | some np =>
      if np.endTime.isSome then p
      else
        { p with
          nodes := setNode p.nodes nodeId
            { np with endTime := some timestamp, vramAfter := vramAfter, ramAfter := ramAfter },
          totalVramPeak := max p.totalVramPeak vramAfter,
          totalRamPeak := max p.totalRamPeak ramAfter }
  | .cacheResolved nodeId hit =>
    match findNode p.nodes nodeId with
    | none => p
    | some np =>
      match np.cacheHit with
      | some _ => p
      | none =>
        { p with
          nodes := setNode p.nodes nodeId { np with cacheHit := some hit },
          cacheHits := p.cacheHits + (if hit then 1 else 0),
          cacheMisses := p.cacheMisses + (if hit then 0 else 1) }

/-- Modelled from the spec: the `WorkflowProfile` created on the first event of a
run (spec section 3: counters and peaks start at zero, no nodes). -/
def initProfile (startTime : Int) : WorkflowProfile :=
  { startTime := startTime, endTime := none, nodes := [],
    totalVramPeak := 0, totalRamPeak := 0, cacheHits := 0, cacheMisses := 0 }

/-- Folding a whole event sequence into an in-flight workflow profile. -/
def applyEvents (p : WorkflowProfile) (events : List NodeEvent) : WorkflowProfile :=
  events.foldl applyEvent p

/-- 1 when the node's cache outcome has been resolved, else 0. -/
def resolvedBit (np : NodeProfile) : Nat := if np.cacheHit.isSome then 1 else 0

/-- Number of nodes of the association list whose cache outcome has been resolved. -/
def resolvedCount : List (String × NodeProfile) → Nat
  | [] => 0
  | kv :: rest => resolvedBit kv.2 + resolvedCount rest

/-- Maximum over the closed nodes of a given after-execution byte count
(`NodeProfile.vramAfter` or `NodeProfile.ramAfter`); 0 when no node has closed. -/
def closedBytesMax (after : NodeProfile → Nat) : List (String × NodeProfile) → Nat
  | [] => 0
  | kv :: rest =>
    if kv.2.endTime.isSome then max (after kv.2) (closedBytesMax after rest)
    else closedBytesMax after rest

lemma applyEvent_start_dup (p : WorkflowProfile) (nodeId nodeType : String)
    (timestamp : Int) (np : NodeProfile) (h : findNode p.nodes nodeId = some np) :
    applyEvent p (.start nodeId nodeType timestamp) = p := by
  simp [applyEvent, h]

lemma applyEvent_start_new (p : WorkflowProfile) (nodeId nodeType : String)
    (timestamp : Int) (h : findNode p.nodes nodeId = none) :
    applyEvent p (.start nodeId nodeType timestamp)
      = { p with nodes := p.nodes ++ [(nodeId, freshNode nodeType timestamp)] } := by
  simp [applyEvent, h]

lemma applyEvent_end_missing (p : WorkflowProfile) (nodeId : String)
    (timestamp : Int) (vramAfter ramAfter : Nat) (h : findNode p.nodes nodeId = none) :
    applyEvent p (.nodeEnd nodeId timestamp vramAfter ramAfter) = p := by
  simp [applyEvent, h]

lemma applyEvent_end_closed (p : WorkflowProfile) (nodeId : String)
    (timestamp : Int) (vramAfter ramAfter : Nat) (np : NodeProfile)
    (h : findNode p.nodes nodeId = some np) (hend : np.endTime.isSome = true) :
    applyEvent p (.nodeEnd nodeId timestamp vramAfter ramAfter) = p := by
  simp [applyEvent, h, hend]

lemma applyEvent_end_open (p : WorkflowProfile) (nodeId : String)
    (timestamp : Int) (vramAfter ramAfter : Nat) (np : NodeProfile)
    (h : findNode p.nodes nodeId = some np) (hopen : np.endTime = none) :
    applyEvent p (.nodeEnd nodeId timestamp vramAfter ramAfter)
      = { p with
          nodes := setNode p.nodes nodeId
            { np with endTime := some timestamp, vramAfter := vramAfter, ramAfter := ramAfter },
          totalVramPeak := max p.totalVramPeak vramAfter,
          totalRamPeak := max p.totalRamPeak ramAfter } := by
  simp [applyEvent, h, hopen]

lemma applyEvent_cache_missing (p : WorkflowProfile) (nodeId : String) (hit : Bool)
    (h : findNode p.nodes nodeId = none) :
    applyEvent p (.cacheResolved nodeId hit) = p := by
  simp [applyEvent, h]

lemma applyEvent_cache_dup (p : WorkflowProfile) (nodeId : String) (hit b : Bool)
    (np : NodeProfile) (h : findNode p.nodes nodeId = some np)
    (hc : np.cacheHit = some b) :
    applyEvent p (.cacheResolved nodeId hit) = p := by
  simp [applyEvent, h, hc]

lemma applyEvent_cache_new (p : WorkflowProfile) (nodeId : String) (hit : Bool)
    (np : NodeProfile) (h : findNode p.nodes nodeId = some np)
    (hc : np.cacheHit = none) :
    applyEvent p (.cacheResolved nodeId hit)
      = { p with
          nodes := setNode p.nodes nodeId { np with cacheHit := some hit },
          cacheHits := p.cacheHits + (if hit then 1 else 0),
          cacheMisses := p.cacheMisses + (if hit then 0 else 1) } := by
  simp [applyEvent, h, hc]

lemma resolvedCount_append (l1 l2 : List (String × NodeProfile)) :
    resolvedCount (l1 ++ l2) = resolvedCount l1 + resolvedCount l2 := by
  induction l1 with
  | nil => simp [resolvedCount]
  | cons kv rest ih => simp [resolvedCount, ih]; omega

lemma resolvedCount_setNode (nodes : List (String × NodeProfile)) (k : String)
    (np np' : NodeProfile) (h : findNode nodes k = some np) :
    resolvedCount (setNode nodes k np') + resolvedBit np
      = resolvedCount nodes + resolvedBit np' := by
  induction nodes with
  | nil => simp [findNode] at h
  | cons kv rest ih =>
    by_cases hk : kv.1 = k
    · rw [findNode, if_pos hk] at h
      injection h with h
      simp only [setNode, if_pos hk, resolvedCount, h]
      omega
    · rw [findNode, if_neg hk] at h
      simp only [setNode, if_neg hk, resolvedCount]
      have := ih h
      omega

lemma cache_counters_applyEvent (p : WorkflowProfile) (e : NodeEvent)
    (h : p.cacheHits + p.cacheMisses = resolvedCount p.nodes) :
    (applyEvent p e).cacheHits + (applyEvent p e).cacheMisses
      = resolvedCount (applyEvent p e).nodes := by
  cases e with
  | start nodeId nodeType timestamp =>
    cases hfind : findNode p.nodes nodeId with
    | some np => rw [applyEvent_start_dup p nodeId nodeType timestamp np hfind]; exact h
    | none =>
      rw [applyEvent_start_new p nodeId nodeType timestamp hfind]
      simp only [resolvedCount_append, resolvedCount, resolvedBit, freshNode]
      simp [h]
  | nodeEnd nodeId timestamp vramAfter ramAfter =>
    cases hfind : findNode p.nodes nodeId with
    | none => rw [applyEvent_end_missing p nodeId timestamp vramAfter ramAfter hfind]; exact h
    | some np =>
      cases hend : np.endTime with
      | some t =>
        rw [applyEvent_end_closed p nodeId timestamp vramAfter ramAfter np hfind (by simp [hend])]
        exact h
      | none =>
        rw [applyEvent_end_open p nodeId timestamp vramAfter ramAfter np hfind hend]
        have hset := resolvedCount_setNode p.nodes nodeId np
          { np with endTime := some timestamp, vramAfter := vramAfter, ramAfter := ramAfter } hfind
        have hbit : resolvedBit
            { np with endTime := some timestamp, vramAfter := vramAfter, ramAfter := ramAfter }
            = resolvedBit np := rfl
        rw [hbit] at hset
        simp only []
        omega
  | cacheResolved nodeId hit =>
    cases hfind : findNode p.nodes nodeId with
    | none => rw [applyEvent_cache_missing p nodeId hit hfind]; exact h
    | some np =>
      cases hc : np.cacheHit with
      | some b => rw [applyEvent_cache_dup p nodeId hit b np hfind hc]; exact h
      | none =>
        rw [applyEvent_cache_new p nodeId hit np hfind hc]
        have hset := resolvedCount_setNode p.nodes nodeId np
          { np with cacheHit := some hit } hfind
        have hbit0 : resolvedBit np = 0 := by simp [resolvedBit, hc]
        have hbit1 : resolvedBit { np with cacheHit := some hit } = 1 := rfl
        rw [hbit0, hbit1] at hset
        cases hit <;> simp <;> omega

lemma cache_counters_applyEvents (p : WorkflowProfile) (events : List NodeEvent)
    (h : p.cacheHits + p.cacheMisses = resolvedCount p.nodes) :
    (applyEvents p events).cacheHits + (applyEvents p events).cacheMisses
      = resolvedCount (applyEvents p events).nodes := by
  induction events generalizing p with
  | nil => exact h
  | cons e es ih =>
    rw [applyEvents, List.foldl_cons]
    exact ih (applyEvent p e) (cache_counters_applyEvent p e h)

/-- C5: for every event sequence (well-formed pairings included — out-of-protocol
events are dropped by the error policy and change nothing), the aggregated
`WorkflowProfile` satisfies `cacheHits + cacheMisses = number of nodes whose
cacheHit outcome has been resolved`, at every observation point. -/
theorem workflow_cache_counter_invariant :
    ∀ (t0 : Int) (events : List NodeEvent),
      (applyEvents (initProfile t0) events).cacheHits
        + (applyEvents (initProfile t0) events).cacheMisses
        = resolvedCount (applyEvents (initProfile t0) events).nodes :=
  fun t0 events =>
    cache_counters_applyEvents (initProfile t0) events (by simp [initProfile, resolvedCount])

lemma closedBytesMax_append_open (after : NodeProfile → Nat)
    (nodes : List (String × NodeProfile)) (k : String) (np : NodeProfile)
    (h : np.endTime = none) :
    closedBytesMax after (nodes ++ [(k, np)]) = closedBytesMax after nodes := by
  induction nodes with
  | nil => simp [closedBytesMax, h]
  | cons kv rest ih =>
    simp only [List.cons_append, closedBytesMax, List.append_eq, ih]

lemma closedBytesMax_setNode_same (after : NodeProfile → Nat)
    (nodes : List (String × NodeProfile)) (k : String) (np np' : NodeProfile)
    (hfind : findNode nodes k = some np)
    (hend : np'.endTime = np.endTime) (hafter : after np' = after np) :
    closedBytesMax after (setNode nodes k np') = closedBytesMax after nodes := by
  induction nodes with
  | nil => simp [findNode] at hfind
  | cons kv rest ih =>
    by_cases hk : kv.1 = k
    · rw [findNode, if_pos hk] at hfind
      injection hfind with hfind
      simp only [setNode, if_pos hk, closedBytesMax, hend, hafter, hfind]
    · rw [findNode, if_neg hk] at hfind
      simp only [setNode, if_neg hk, closedBytesMax, ih hfind]

lemma closedBytesMax_setNode_close (after : NodeProfile → Nat)
    (nodes : List (String × NodeProfile)) (k : String) (np np' : NodeProfile)
    (hfind : findNode nodes k = some np)
    (hopen : np.endTime = none)
    (hclosed : np'.endTime.isSome = true) :
    closedBytesMax after (setNode nodes k np')
      = max (after np') (closedBytesMax after nodes) := by
  induction nodes with
  | nil => simp [findNode] at hfind
  | cons kv rest ih =>
    by_cases hk : kv.1 = k
    · rw [findNode, if_pos hk] at hfind
      injection hfind with hfind
      simp only [setNode, if_pos hk, closedBytesMax, hclosed, if_true, hfind, hopen,
        Option.isSome_none, Bool.false_eq_true, if_false]
    · rw [findNode, if_neg hk] at hfind
      simp only [setNode, if_neg hk, closedBytesMax, ih hfind]
      by_cases hc : kv.2.endTime.isSome = true
      · simp only [hc, if_true, max_left_comm]
      · simp only [hc, Bool.false_eq_true, if_false]

lemma peaks_applyEvent (p : WorkflowProfile) (e : NodeEvent)
    (hv : p.totalVramPeak = closedBytesMax NodeProfile.vramAfter p.nodes)
    (hr : p.totalRamPeak = closedBytesMax NodeProfile.ramAfter p.nodes) :
    (applyEvent p e).totalVramPeak
        = closedBytesMax NodeProfile.vramAfter (applyEvent p e).nodes ∧
    (applyEvent p e).totalRamPeak
        = closedBytesMax NodeProfile.ramAfter (applyEvent p e).nodes := by
  cases e with
  | start nodeId nodeType timestamp =>
    cases hfind : findNode p.nodes nodeId with
    | some np => rw [applyEvent_start_dup p nodeId nodeType timestamp np hfind]; exact ⟨hv, hr⟩
    | none =>
      rw [applyEvent_start_new p nodeId nodeType timestamp hfind]
      refine ⟨?_, ?_⟩ <;>
        simp only [closedBytesMax_append_open _ _ _ _
          (rfl : (freshNode nodeType timestamp).endTime = none), hv, hr]
  | nodeEnd nodeId timestamp vramAfter ramAfter =>
    cases hfind : findNode p.nodes nodeId with
    | none => rw [applyEvent_end_missing p nodeId timestamp vramAfter ramAfter hfind]; exact ⟨hv, hr⟩
    | some np =>
      cases hend : np.endTime with
      | some t =>
        rw [applyEvent_end_closed p nodeId timestamp vramAfter ramAfter np hfind (by simp [hend])]
        exact ⟨hv, hr⟩
      | none =>
        rw [applyEvent_end_open p nodeId timestamp vramAfter ramAfter np hfind hend]
        constructor
        · show max p.totalVramPeak vramAfter = closedBytesMax NodeProfile.vramAfter (setNode p.nodes nodeId _)
          rw [closedBytesMax_setNode_close NodeProfile.vramAfter p.nodes nodeId np
            { np with endTime := some timestamp, vramAfter := vramAfter, ramAfter := ramAfter }
            hfind hend rfl, hv]
          exact max_comm _ _
        · show max p.totalRamPeak ramAfter = closedBytesMax NodeProfile.ramAfter (setNode p.nodes nodeId _)
          rw [closedBytesMax_setNode_close NodeProfile.ramAfter p.nodes nodeId np
            { np with endTime := some timestamp, vramAfter := vramAfter, ramAfter := ramAfter }
            hfind hend rfl, hr]
          exact max_comm _ _
  | cacheResolved nodeId hit =>
    cases hfind : findNode p.nodes nodeId with
    | none => rw [applyEvent_cache_missing p nodeId hit hfind]; exact ⟨hv, hr⟩
    | some np =>
      cases hc : np.cacheHit with
      | some b => rw [applyEvent_cache_dup p nodeId hit b np hfind hc]; exact ⟨hv, hr⟩
      | none =>
        rw [applyEvent_cache_new p nodeId hit np hfind hc]
        constructor
        · show p.totalVramPeak = closedBytesMax NodeProfile.vramAfter (setNode p.nodes nodeId _)
          rw [hv]
          exact (closedBytesMax_setNode_same NodeProfile.vramAfter p.nodes nodeId np
            { np with cacheHit := some hit } hfind rfl rfl).symm
        · show p.totalRamPeak = closedBytesMax NodeProfile.ramAfter (setNode p.nodes nodeId _)
          rw [hr]
          exact (closedBytesMax_setNode_same NodeProfile.ramAfter p.nodes nodeId np
            { np with cacheHit := some hit } hfind rfl rfl).symm

lemma peaks_applyEvents (p : WorkflowProfile) (events : List NodeEvent)
    (hv : p.totalVramPeak = closedBytesMax NodeProfile.vramAfter p.nodes)
    (hr : p.totalRamPeak = closedBytesMax NodeProfile.ramAfter p.nodes) :
    (applyEvents p events).totalVramPeak
        = closedBytesMax NodeProfile.vramAfter (applyEvents p events).nodes ∧
    (applyEvents p events).totalRamPeak
        = closedBytesMax NodeProfile.ramAfter (applyEvents p events).nodes := by
  induction events generalizing p with
  | nil => exact ⟨hv, hr⟩
  | cons e es ih =>
    rw [applyEvents, List.foldl_cons]
    obtain ⟨hv', hr'⟩ := peaks_applyEvent p e hv hr
    exact ih (applyEvent p e) hv' hr'

lemma peaks_mono (p : WorkflowProfile) (e : NodeEvent) :
    p.totalVramPeak ≤ (applyEvent p e).totalVramPeak ∧
    p.totalRamPeak ≤ (applyEvent p e).totalRamPeak := by
  cases e with
  | start nodeId nodeType timestamp =>
    cases hfind : findNode p.nodes nodeId with
    | some np => rw [applyEvent_start_dup p nodeId nodeType timestamp np hfind]; exact ⟨le_refl _, le_refl _⟩
    | none => rw [applyEvent_start_new p nodeId nodeType timestamp hfind]; exact ⟨le_refl _, le_refl _⟩
  | nodeEnd nodeId timestamp vramAfter ramAfter =>
    cases hfind : findNode p.nodes nodeId with
    | none => rw [applyEvent_end_missing p nodeId timestamp vramAfter ramAfter hfind]; exact ⟨le_refl _, le_refl _⟩
    | some np =>
      cases hend : np.endTime with
      | some t =>
        rw [applyEvent_end_closed p nodeId timestamp vramAfter ramAfter np hfind (by simp [hend])]
        exact ⟨le_refl _, le_refl _⟩
      | none =>
        rw [applyEvent_end_open p nodeId timestamp vramAfter ramAfter np hfind hend]
        exact ⟨le_max_left _ _, le_max_left _ _⟩
  | cacheResolved nodeId hit =>
    cases hfind : findNode p.nodes nodeId with
    | none => rw [applyEvent_cache_missing p nodeId hit hfind]; exact ⟨le_refl _, le_refl _⟩
    | some np =>
      cases hc : np.cacheHit with
      | some b => rw [applyEvent_cache_dup p nodeId hit b np hfind hc]; exact ⟨le_refl _, le_refl _⟩
      | none => rw [applyEvent_cache_new p nodeId hit np hfind hc]; exact ⟨le_refl _, le_refl _⟩

/-- C6: over the lifetime of one `WorkflowProfile`, `totalVramPeak` and
`totalRamPeak` never decrease under any single aggregator update, and after any
event sequence from the initial profile they equal the maximum `vramAfter`
(respectively `ramAfter`) recorded so far, i.e. the maximum over the closed
nodes (0 before any node has closed). -/
theorem workflow_peak_invariant :
    (∀ (p : WorkflowProfile) (e : NodeEvent),
        p.totalVramPeak ≤ (applyEvent p e).totalVramPeak ∧
        p.totalRamPeak ≤ (applyEvent p e).totalRamPeak) ∧
    (∀ (t0 : Int) (events : List NodeEvent),
        (applyEvents (initProfile t0) events).totalVramPeak
          = closedBytesMax NodeProfile.vramAfter (applyEvents (initProfile t0) events).nodes ∧
        (applyEvents (initProfile t0) events).totalRamPeak
          = closedBytesMax NodeProfile.ramAfter (applyEvents (initProfile t0) events).nodes) :=
  ⟨peaks_mono, fun t0 events => peaks_applyEvents (initProfile t0) events rfl rfl⟩

/-! ## Running-average tracker (modelled from the spec)

The tracker implementation is not among the repository's source files: only the
`ProfilerStats` accumulator shape (`src/unnamed/part_002`, lines 24–40) is.
The query semantics below follows spec sections 3 and 4.3. -/

/-- Modelled from the spec: a running-average accumulator as declared in
`ProfilerStats.node_averages` — running sums plus the sample count
(spec section 3). Sums are integers (memory deltas may be negative). -/
structure NodeAccum where
  total_time : Int
  vram_usage : Int
  ram_usage : Int
  count : Nat
  cache_hits : Nat
deriving DecidableEq

/-- The failure an unguarded average query could raise. -/
inductive QueryError where
  | divisionByZero
deriving DecidableEq

/-- Division of a running sum by a sample count, faulting on a zero count. -/
def checkedDiv (sum : Int) (count : Nat) : Except QueryError ℚ :=
  if count = 0 then Except.error QueryError.divisionByZero
  else Except.ok ((sum : ℚ) / (count : ℚ))

/-- Modelled from the spec: an average is computed on query as `sum / count`,
with the `count == 0` guard reporting zero instead of a division fault
(spec section 4.3). -/
def queryAverage (sum : Int) (count : Nat) : Except QueryError ℚ :=
  if count = 0 then Except.ok 0 else checkedDiv sum count

/-- C7: for every accumulator state, the average query returns exactly
`sum / count` when `count > 0`, returns the defined zero result when
`count = 0`, and never reaches the division-by-zero fault of `checkedDiv`. -/
theorem average_query_total :
    ∀ (acc : NodeAccum),
      (acc.count = 0 → queryAverage acc.total_time acc.count = Except.ok 0) ∧
      (0 < acc.count → queryAverage acc.total_time acc.count
          = Except.ok ((acc.total_time : ℚ) / (acc.count : ℚ))) ∧
      queryAverage acc.total_time acc.count ≠ Except.error QueryError.divisionByZero := by
  intro acc
  by_cases h : acc.count = 0
  · refine ⟨fun _ => by simp [queryAverage, h], fun hpos => absurd h (by omega), ?_⟩
    simp [queryAverage, h]
  · refine ⟨fun h0 => absurd h0 h, fun _ => by simp [queryAverage, checkedDiv, h], ?_⟩
    simp [queryAverage, checkedDiv, h]

/-! ## History store (modelled from the spec)

The store implementation is not among the repository's source files: only the
`maxDataPoints` setting (`src/web/modules.d.ts`, `ProfilerSettings`) is
declared. The append/evict discipline below follows spec section 4.4. -/

/-- Modelled from the spec: `append(profile)` of the History Store — the new
record is appended last; when the retained count would exceed `maxDataPoints`,
the oldest entries are evicted from the front and offered to archiving. The
result is `(evicted entries, store after the append)` (spec section 4.4). -/
def appendHistory (maxDataPoints : Nat) (store : List WorkflowProfile)
    (profile : WorkflowProfile) : List WorkflowProfile × List WorkflowProfile :=
  let grown := store ++ [profile]
  (grown.take (grown.length - maxDataPoints), grown.drop (grown.length - maxDataPoints))

/-- The store contents after a whole sequence of appends, starting empty. -/
def runAppends (maxDataPoints : Nat) (profiles : List WorkflowProfile) :
    List WorkflowProfile :=
  profiles.foldl (fun store profile => (appendHistory maxDataPoints store profile).2) []

lemma appendHistory_snd_length_le (maxDataPoints : Nat)
    (store : List WorkflowProfile) (profile : WorkflowProfile) :
    ((appendHistory maxDataPoints store profile).2).length ≤ maxDataPoints := by
  simp only [appendHistory, List.length_drop]
  omega

lemma runAppends_length_le_aux (maxDataPoints : Nat)
    (profiles : List WorkflowProfile) (store : List WorkflowProfile)
    (h : store.length ≤ maxDataPoints) :
    (profiles.foldl (fun s q => (appendHistory maxDataPoints s q).2) store).length
      ≤ maxDataPoints := by
  induction profiles generalizing store with
  | nil => exact h
  | cons q qs ih =>
    rw [List.foldl_cons]
    exact ih _ (appendHistory_snd_length_le maxDataPoints store q)

/-- C8: after any sequence of appends the History Store holds at most
`maxDataPoints` entries; each single append keeps at most `maxDataPoints`
entries; and the entries an append evicts, followed by the entries it keeps,
are exactly the pre-eviction contents `store ++ [profile]` — so the evicted
entries are, in order, the oldest entries held at the time of eviction. -/
theorem history_store_bounded :
    (∀ (maxDataPoints : Nat) (profiles : List WorkflowProfile),
        (runAppends maxDataPoints profiles).length ≤ maxDataPoints) ∧
    (∀ (maxDataPoints : Nat) (store : List WorkflowProfile) (profile : WorkflowProfile),
        ((appendHistory maxDataPoints store profile).2).length ≤ maxDataPoints) ∧
    (∀ (maxDataPoints : Nat) (store : List WorkflowProfile) (profile : WorkflowProfile),
        (appendHistory maxDataPoints store profile).1
            ++ (appendHistory maxDataPoints store profile).2
          = store ++ [profile]) :=
  ⟨fun maxDataPoints profiles =>
      runAppends_length_le_aux maxDataPoints profiles [] (by simp),
   appendHistory_snd_length_le,
   fun maxDataPoints store profile => List.take_append_drop _ _⟩

end ProfilerX
